import Mathlib

/-!
Verification of the Markdown ⇄ HTML conversion engine and its embedded HTML
sanitizer.  All definitions are shallow embeddings of the TypeScript source:
strings are lists of characters, each JavaScript regex replace is rendered as
an explicit left-to-right scanner with the same match semantics, and the
stateful line loop of the markdown parser becomes an explicit state record
with a step function.
-/

set_option maxRecDepth 10000

namespace Horse

/-- JavaScript whitespace class (the portion relevant to this code base):
space, tab, newline, carriage return, vertical tab, form feed, NBSP. -/
def jsWs (c : Char) : Bool :=
  c = ' ' || c = '\t' || c = '\n' || c = '\r' ||
  c = Char.ofNat 11 || c = Char.ofNat 12 || c = Char.ofNat 160

def trimLeft (l : List Char) : List Char := l.dropWhile jsWs

def trimRight (l : List Char) : List Char := (l.reverse.dropWhile jsWs).reverse

/-- JavaScript `String.prototype.trim`. -/
def jsTrim (l : List Char) : List Char := trimRight (trimLeft l)

/-- JavaScript `toLowerCase` restricted to ASCII (all inputs of interest). -/
def lowerStr (l : List Char) : List Char := l.map Char.toLower

def asciiLetter (c : Char) : Bool :=
  ('a' ≤ c && c ≤ 'z') || ('A' ≤ c && c ≤ 'Z')

/-- `[a-z0-9]` with the `i` flag. -/
def tagNameChar (c : Char) : Bool := asciiLetter c || c.isDigit

/-- `[a-z0-9\-]` with the `i` flag. -/
def attrNameChar (c : Char) : Bool := asciiLetter c || c.isDigit || c = '-'

/-- Global replace of a single literal character, i.e. `s.replace(/c/g, rep)`. -/
def replaceCh (c : Char) (rep : List Char) : List Char → List Char
  | [] => []
  | x :: xs => if x = c then rep ++ replaceCh c rep xs else x :: replaceCh c rep xs

/-- Global replace of a multi-character literal pattern, fuelled. -/
def replaceStrF (pat rep : List Char) : Nat → List Char → List Char
  | _, [] => []
  | 0, l => l
  | n + 1, x :: xs =>
    if pat.isPrefixOf (x :: xs) then rep ++ replaceStrF pat rep n ((x :: xs).drop pat.length)
    else x :: replaceStrF pat rep n xs

def replaceStr (pat rep l : List Char) : List Char := replaceStrF pat rep l.length l

/-- Generic global regex replace: `f` attempts a match at the current
position, returning the replacement text and the remainder after the match.
Scanning resumes after the replaced match, exactly like JS `replace(..., g)`. -/
def rewriteF (f : List Char → Option (List Char × List Char)) :
    Nat → List Char → List Char
  | _, [] => []
  | 0, l => l
  | n + 1, x :: xs =>
    match f (x :: xs) with
    | some (rep, rest) => rep ++ rewriteF f n rest
    | none => x :: rewriteF f n xs

def rewriteAll (f : List Char → Option (List Char × List Char)) (l : List Char) :
    List Char := rewriteF f l.length l

/-- Counting variant for replacer callbacks that bump `removedCount`. -/
def rewriteCF (f : List Char → Option (List Char × Nat × List Char)) :
    Nat → List Char → List Char × Nat
  | _, [] => ([], 0)
  | 0, l => (l, 0)
  | n + 1, x :: xs =>
    match f (x :: xs) with
    | some (rep, k, rest) =>
      let p := rewriteCF f n rest
      (rep ++ p.1, k + p.2)
    | none =>
      let p := rewriteCF f n xs
      (x :: p.1, p.2)

def rewriteC (f : List Char → Option (List Char × Nat × List Char)) (l : List Char) :
    List Char × Nat := rewriteCF f l.length l

/-- Case-insensitive prefix test; the pattern is given in lower case. -/
def ciPrefixOf : List Char → List Char → Bool
  | [], _ => true
  | _ :: _, [] => false
  | p :: ps, c :: cs => (Char.toLower c = p) && ciPrefixOf ps cs

/-- Split at the first case-insensitive occurrence of `pat`:
returns the text before the occurrence and the text after it. -/
def splitFirstCI (pat : List Char) : List Char → Option (List Char × List Char)
  | [] => none
  | c :: cs =>
    if ciPrefixOf pat (c :: cs) then some ([], (c :: cs).drop pat.length)
    else
      match splitFirstCI pat cs with
      | some (b, a) => some (c :: b, a)
      | none => none

/-- Split at the first (case-sensitive) occurrence of `pat`. -/
def splitFirstCS (pat : List Char) : List Char → Option (List Char × List Char)
  | [] => none
  | c :: cs =>
    if pat.isPrefixOf (c :: cs) then some ([], (c :: cs).drop pat.length)
    else
      match splitFirstCS pat cs with
      | some (b, a) => some (c :: b, a)
      | none => none

/-- `String.prototype.split` with a single-character separator. -/
def splitOnCh (sep : Char) : List Char → List (List Char)
  | [] => [[]]
  | c :: cs =>
    let r := splitOnCh sep cs
    if c = sep then [] :: r
    else
      match r with
      | h :: t => (c :: h) :: t
      | [] => [[c]]

def joinWith (sep : List Char) : List (List Char) → List Char
  | [] => []
  | [x] => x
  | x :: y :: rest => x ++ sep ++ joinWith sep (y :: rest)

/-- `parseInt(s, 10)` on an all-digit string. -/
def digitsToNat (l : List Char) : Nat := l.foldl (fun a c => a * 10 + (c.toNat - 48)) 0

def hexDigit (c : Char) : Bool := c.isDigit || ('a' ≤ c && c ≤ 'f') || ('A' ≤ c && c ≤ 'F')

def hexDigitVal (c : Char) : Nat :=
  if c.isDigit then c.toNat - 48
  else if 'a' ≤ c && c ≤ 'f' then c.toNat - 87
  else c.toNat - 55

def hexToNat (l : List Char) : Nat := l.foldl (fun a c => a * 16 + hexDigitVal c) 0

/-- `String.fromCharCode` (one code unit, taken mod 2^16). -/
def jsFromCharCode (n : Nat) : Char := Char.ofNat (n % 65536)

/-!  ## Escaper / Unescaper (source: `escapeHtml`, `unescapeHtml`)  -/

/-- `escapeHtml`: five sequential global replaces, `&` first. -/
def escapeHtmlL (l : List Char) : List Char :=
  replaceCh '\'' ("&#39;".data)
    (replaceCh '"' ("&quot;".data)
      (replaceCh '>' ("&gt;".data)
        (replaceCh '<' ("&lt;".data)
          (replaceCh '&' ("&amp;".data) l))))

def escapeHtml (s : String) : String := String.mk (escapeHtmlL s.data)

/-- Match for `&#(\d+);` at the current position. -/
def decEntTry (l : List Char) : Option (List Char × List Char) :=
  if "&#".data.isPrefixOf l then
    let r := l.drop 2
    let ds := r.takeWhile Char.isDigit
    if ds.isEmpty then none
    else
      match r.drop ds.length with
      | c :: rest => if c = ';' then some ([jsFromCharCode (digitsToNat ds)], rest) else none
      | [] => none
  else none

/-- Match for `&#x([0-9a-fA-F]+);` at the current position. -/
def hexEntTry (l : List Char) : Option (List Char × List Char) :=
  if "&#x".data.isPrefixOf l then
    let r := l.drop 3
    let ds := r.takeWhile hexDigit
    if ds.isEmpty then none
    else
      match r.drop ds.length with
      | c :: rest => if c = ';' then some ([jsFromCharCode (hexToNat ds)], rest) else none
      | [] => none
  else none

/-- `unescapeHtml`: the source's eight global replaces in order. -/
def unescapeHtmlL (l : List Char) : List Char :=
  rewriteAll hexEntTry
    (rewriteAll decEntTry
      (replaceStr ("&nbsp;".data) [' ']
        (replaceStr ("&#39;".data) ['\'']
          (replaceStr ("&quot;".data) ['"']
            (replaceStr ("&amp;".data) ['&']
              (replaceStr ("&gt;".data) ['>']
                (replaceStr ("&lt;".data) ['<'] l)))))))

def unescapeHtml (s : String) : String := String.mk (unescapeHtmlL s.data)

/-!  ## HTML sanitizer (source: `DANGEROUS_TAGS` … `sanitizeHtml`)  -/

/-- Tags that are always removed along with their content (insertion order of
the source `Set`, which is the iteration order of the removal loop). -/
def DANGEROUS_TAGS : List (List Char) :=
  ["script", "style", "iframe", "object", "embed", "form",
   "input", "button", "select", "textarea", "applet", "frame",
   "frameset", "meta", "link", "base", "noscript"].map String.data

/-- Tags that are safe to keep. -/
def SAFE_TAGS : List (List Char) :=
  ["html", "head", "body", "main", "article", "section", "nav", "aside",
   "header", "footer", "div", "span",
   "h1", "h2", "h3", "h4", "h5", "h6", "p", "br", "hr", "wbr",
   "b", "strong", "i", "em", "u", "s", "strike", "del", "ins", "mark",
   "small", "big", "sub", "sup", "code", "pre", "kbd", "samp", "var",
   "abbr", "cite", "dfn", "q", "blockquote", "address",
   "ul", "ol", "li", "dl", "dt", "dd",
   "table", "thead", "tbody", "tfoot", "tr", "th", "td", "caption", "colgroup", "col",
   "img", "figure", "figcaption", "picture", "source", "audio", "video", "track",
   "a",
   "details", "summary", "time", "data", "ruby", "rt", "rp", "bdi", "bdo"].map String.data

/-- Attributes that are safe to keep. -/
def SAFE_ATTRIBUTES : List (List Char) :=
  ["id", "class", "title", "lang", "dir", "tabindex", "role",
   "aria-label", "aria-labelledby", "aria-describedby", "aria-hidden",
   "href", "src", "alt", "width", "height", "loading", "decoding",
   "colspan", "rowspan", "scope", "headers",
   "start", "reversed", "type", "value",
   "open", "datetime", "cite", "download", "target", "rel",
   "controls", "autoplay", "loop", "muted", "poster", "preload"].map String.data

/-- `EVENT_HANDLER_PATTERN = /^on[a-z]/i`, applied to the lowercased name. -/
def isEventHandler (name : List Char) : Bool :=
  match name with
  | 'o' :: 'n' :: c :: _ => 'a' ≤ c && c ≤ 'z'
  | _ => false

/-- `isSafeUrl` on the character list. -/
def isSafeUrlL (url : List Char) : Bool :=
  let trimmed := lowerStr (jsTrim url)
  if trimmed.isEmpty || "/".data.isPrefixOf trimmed || "#".data.isPrefixOf trimmed ||
      "http://".data.isPrefixOf trimmed || "https://".data.isPrefixOf trimmed ||
      "mailto:".data.isPrefixOf trimmed || "tel:".data.isPrefixOf trimmed then
    true
  else if "javascript:".data.isPrefixOf trimmed || "data:".data.isPrefixOf trimmed ||
      "vbscript:".data.isPrefixOf trimmed || "file:".data.isPrefixOf trimmed then
    false
  else if !(trimmed.contains ':') then true
  else false

def isSafeUrl (url : String) : Bool := isSafeUrlL url.data

/-- Match for `<tag[^>]*>[\s\S]*?</tag>` (flags `gi`) at the current position;
a match is replaced by the empty string and counts one. -/
def pairedTagTry (tag : List Char) (l : List Char) : Option (List Char × Nat × List Char) :=
  if ciPrefixOf ('<' :: tag) l then
    let r := l.drop (tag.length + 1)
    let attrs := r.takeWhile (fun ch => !(ch = '>'))
    match r.drop attrs.length with
    | c :: rest =>
      if c = '>' then
        match splitFirstCI ("</".data ++ tag ++ ['>']) rest with
        | some (_, after) => some ([], 1, after)
        | none => none
      else none
    | [] => none
  else none

/-- Match for the self-closing variant `<tag[^>]*/?>` (flags `gi`). -/
def selfCloseTry (tag : List Char) (l : List Char) : Option (List Char × Nat × List Char) :=
  if ciPrefixOf ('<' :: tag) l then
    let r := l.drop (tag.length + 1)
    let attrs := r.takeWhile (fun ch => !(ch = '>'))
    match r.drop attrs.length with
    | c :: rest => if c = '>' then some ([], 1, rest) else none
    | [] => none
  else none

/-- One iteration of the dangerous-tag loop: remove paired occurrences then
self-closing ones, incrementing the count once per pass that removed
anything (the source compares the string length before and after). -/
def dangerousStep (acc : List Char × Nat) (tag : List Char) : List Char × Nat :=
  let p1 := rewriteC (pairedTagTry tag) acc.1
  let c1 := if p1.2 ≠ 0 then acc.2 + 1 else acc.2
  let p2 := rewriteC (selfCloseTry tag) p1.1
  (p2.1, if p2.2 ≠ 0 then c1 + 1 else c1)

/-- The dangerous-tag loop over all tags in iteration order. -/
def dangerousPass (l : List Char) : List Char × Nat :=
  DANGEROUS_TAGS.foldl dangerousStep (l, 0)

/-- The attribute tokenizer
`/([a-z][a-z0-9\-]*)\s*(?:=\s*(?:"([^"]*)"|'([^']*)'|([^\s>]+)))?/gi`
run with `exec` over the attribute text; yields (lowercased name, raw value). -/
def parseAttrsF : Nat → List Char → List (List Char × List Char)
  | 0, _ => []
  | _, [] => []
  | n + 1, c :: cs =>
    if asciiLetter c then
      let nameRest := cs.takeWhile attrNameChar
      let name := lowerStr (c :: nameRest)
      let r1 := cs.drop nameRest.length
      let ws := r1.takeWhile jsWs
      let r2 := r1.drop ws.length
      match r2 with
      | '=' :: r3 =>
        let ws2 := r3.takeWhile jsWs
        let r4 := r3.drop ws2.length
        match r4 with
        | '"' :: r5 =>
          (match splitFirstCS ['"'] r5 with
           | some (v, after) => (name, v) :: parseAttrsF n after
           | none =>
             let v := r4.takeWhile (fun ch => !(jsWs ch) && !(ch = '>'))
             (name, v) :: parseAttrsF n (r4.drop v.length))
        | '\'' :: r5 =>
          (match splitFirstCS ['\''] r5 with
           | some (v, after) => (name, v) :: parseAttrsF n after
           | none =>
             let v := r4.takeWhile (fun ch => !(jsWs ch) && !(ch = '>'))
             (name, v) :: parseAttrsF n (r4.drop v.length))
        | _ =>
          let v := r4.takeWhile (fun ch => !(jsWs ch) && !(ch = '>'))
          if v.isEmpty then (name, []) :: parseAttrsF n r2
          else (name, v) :: parseAttrsF n (r4.drop v.length)
      | _ => (name, []) :: parseAttrsF n r2
    else parseAttrsF n cs

def parseAttrs (l : List Char) : List (List Char × List Char) := parseAttrsF l.length l

/-- Allow-list test: named attribute, or `aria-`/`data-` prefixed. -/
def isAllowedAttrName (name : List Char) : Bool :=
  SAFE_ATTRIBUTES.contains name ||
  "aria-".data.isPrefixOf name || "data-".data.isPrefixOf name

/-- The attribute filter loop inside the stage-2 replacer: returns the kept
attribute fragments (in order) and the number of `removedCount` increments. -/
def processAttrs : List (List Char × List Char) → List (List Char) × Nat
  | [] => ([], 0)
  | (name, v) :: rest =>
    let p := processAttrs rest
    if isEventHandler name then (p.1, p.2 + 1)
    else if !(isAllowedAttrName name) then p
    else if (name = "href".data || name = "src".data) && !(isSafeUrlL v) then (p.1, p.2 + 1)
    else
      let cleaned :=
        if v.isEmpty then name
        else name ++ "=\"".data ++ escapeHtmlL (unescapeHtmlL v) ++ "\"".data
      (cleaned :: p.1, p.2)

/-- Match for `<([a-z][a-z0-9]*)\s+([^>]*?)\s*\/?>` (flags `gi`) with the
attribute-filtering replacer. -/
def stage2Try : List Char → Option (List Char × Nat × List Char)
  | [] => none
  | c :: cs =>
    if c = '<' then
      match cs with
      | t :: ts =>
        if asciiLetter t then
          let nameRest := ts.takeWhile tagNameChar
          let tagName := t :: nameRest
          let r1 := ts.drop nameRest.length
          let ws := r1.takeWhile jsWs
          if ws.isEmpty then none
          else
            let r2 := r1.drop ws.length
            let m := r2.takeWhile (fun ch => !(ch = '>'))
            match r2.drop m.length with
            | _ :: after =>
              let selfClosing := m.getLast? = some '/'
              let attrsStr :=
                if m.getLast? = some '/' then trimRight m.dropLast else trimRight m
              if attrsStr.isEmpty then
                some (('<' :: tagName) ++ ws ++ m ++ ['>'], 0, after)
              else
                let p := processAttrs (parseAttrs attrsStr)
                let attrsOut := if p.1.isEmpty then [] else ' ' :: joinWith [' '] p.1
                some (('<' :: tagName) ++ attrsOut ++
                      (if selfClosing then " />".data else [ '>' ]), p.2, after)
            | [] => none
        else none
      | [] => none
    else none

/-- Match for `<\/?([a-z][a-z0-9]*)[^>]*>` (flags `gi`) at the current
position: the captured tag name, the full matched text, and the remainder. -/
def tagTokenTry : List Char → Option (List Char × List Char × List Char)
  | [] => none
  | c :: cs =>
    if c = '<' then
      let sp : Bool × List Char := match cs with
        | '/' :: r => (true, r)
        | _ => (false, cs)
      match sp.2 with
      | t :: ts =>
        if asciiLetter t then
          let nameRest := ts.takeWhile tagNameChar
          let tagName := t :: nameRest
          let r1 := ts.drop nameRest.length
          let junk := r1.takeWhile (fun ch => !(ch = '>'))
          match r1.drop junk.length with
          | _ :: after =>
            some (tagName, '<' :: ((if sp.1 then ['/'] else []) ++ tagName ++ junk ++ ['>']),
                  after)
          | [] => none
        else none
      | [] => none
    else none

/-- The final-pass replacer: keep the match when the lowercased tag name is
in the safe list, otherwise strip it and count one. -/
def stage3Try (l : List Char) : Option (List Char × Nat × List Char) :=
  match tagTokenTry l with
  | some (tagName, txt, after) =>
    if SAFE_TAGS.contains (lowerStr tagName) then some (txt, 0, after)
    else some ([], 1, after)
  | none => none

/-- The tag occurrences the final pass matches, in scan order. -/
def stage3TagsF : Nat → List Char → List (List Char)
  | _, [] => []
  | 0, _ => []
  | n + 1, c :: cs =>
    match tagTokenTry (c :: cs) with
    | some (tagName, _, after) => tagName :: stage3TagsF n after
    | none => stage3TagsF n cs

def stage3Tags (l : List Char) : List (List Char) := stage3TagsF l.length l

structure SanitizeResult where
  html : String
  removedCount : Nat
deriving Repr, DecidableEq

/-- `sanitizeHtml`: dangerous-tag removal, event-handler / attribute
filtering, then removal of tags not in the safe list. -/
def sanitizeHtml (html : String) : SanitizeResult :=
  let p1 := dangerousPass html.data
  let p2 := rewriteC stage2Try p1.1
  let p3 := rewriteC stage3Try p2.1
  ⟨String.mk p3.1, p1.2 + p2.2 + p3.2⟩

/-!  ## Inline formatter (source: `parseInline` inside `markdownToHtml`)  -/

def btick : Char := Char.ofNat 96

/-- Code spans: `` /`([^`]+)`/g `` → `<code>$1</code>`. -/
def codeSpanTry : List Char → Option (List Char × List Char)
  | [] => none
  | c :: r =>
    if c = btick then
      let content := r.takeWhile (fun ch => !(ch = btick))
      if content.isEmpty then none
      else
        match r.drop content.length with
        | c2 :: after =>
          if c2 = btick then
            some ("<code>".data ++ content ++ "</code>".data, after)
          else none
        | [] => none
    else none

/-- `${titleAttr}` of the image/link replacers: empty when the captured title
is missing or the empty string. -/
def titleAttrOf : Option (List Char) → List Char
  | some t => if t.isEmpty then [] else " title=\"".data ++ t ++ "\"".data
  | none => []

/-- Images: `/!\[([^\]]*)\]\(([^)\s]+)(?:\s+"([^"]*)")?\)/g`. -/
def imageTry : List Char → Option (List Char × List Char)
  | '!' :: '[' :: r =>
    let alt := r.takeWhile (fun ch => !(ch = ']'))
    (match r.drop alt.length with
     | ']' :: '(' :: r2 =>
       let url := r2.takeWhile (fun ch => !(ch = ')') && !(jsWs ch))
       if url.isEmpty then none
       else
         let r3 := r2.drop url.length
         match r3 with
         | ')' :: after =>
           some ("<img src=\"".data ++ url ++ "\" alt=\"".data ++ alt ++
                 titleAttrOf none ++ " />".data, after)
         | ch :: _ =>
           if jsWs ch then
             let ws := r3.takeWhile jsWs
             match r3.drop ws.length with
             | '"' :: r4 =>
               let title := r4.takeWhile (fun k => !(k = '"'))
               (match r4.drop title.length with
                | '"' :: ')' :: after =>
                  some ("<img src=\"".data ++ url ++ "\" alt=\"".data ++ alt ++
                        titleAttrOf (some title) ++ " />".data, after)
                | _ => none)
             | _ => none
           else none
         | [] => none
     | _ => none)
  | _ => none

/-- Links: `/\[([^\]]+)\]\(([^)\s]+)(?:\s+"([^"]*)")?\)/g`. -/
def linkTry : List Char → Option (List Char × List Char)
  | '[' :: r =>
    let txt := r.takeWhile (fun ch => !(ch = ']'))
    if txt.isEmpty then none
    else
      match r.drop txt.length with
      | ']' :: '(' :: r2 =>
        let url := r2.takeWhile (fun ch => !(ch = ')') && !(jsWs ch))
        if url.isEmpty then none
        else
          let r3 := r2.drop url.length
          match r3 with
          | ')' :: after =>
            some ("<a href=\"".data ++ url ++ "\"".data ++ titleAttrOf none ++
                  ">".data ++ txt ++ "</a>".data, after)
          | ch :: _ =>
            if jsWs ch then
              let ws := r3.takeWhile jsWs
              match r3.drop ws.length with
              | '"' :: r4 =>
                let title := r4.takeWhile (fun k => !(k = '"'))
                (match r4.drop title.length with
                 | '"' :: ')' :: after =>
                   some ("<a href=\"".data ++ url ++ "\"".data ++
                         titleAttrOf (some title) ++ ">".data ++ txt ++ "</a>".data, after)
                 | _ => none)
              | _ => none
            else none
          | [] => none
      | _ => none
  | _ => none

/-- URL autolinks: `/&lt;(https?:\/\/[^&]+)&gt;/g` → `<a href="$1">$1</a>`. -/
def autoUrlTry (l : List Char) : Option (List Char × List Char) :=
  if "&lt;".data.isPrefixOf l then
    let r := l.drop 4
    let scheme : Option (List Char) :=
      if "https://".data.isPrefixOf r then some ("https://".data)
      else if "http://".data.isPrefixOf r then some ("http://".data)
      else none
    match scheme with
    | some sch =>
      let body := (r.drop sch.length).takeWhile (fun ch => !(ch = '&'))
      if body.isEmpty then none
      else
        let rest := (r.drop sch.length).drop body.length
        if "&gt;".data.isPrefixOf rest then
          let cap := sch ++ body
          some ("<a href=\"".data ++ cap ++ "\">".data ++ cap ++ "</a>".data, rest.drop 4)
        else none
    | none => none
  else none

/-- Backtracking over the candidate positions of the literal `.` in the
greedy domain run of the email autolink pattern. -/
def emailScan (lcl r2 : List Char) : List Nat → Option (List Char × List Char)
  | [] => none
  | j :: js =>
    let tl := r2.drop (j + 1)
    let restRun := tl.takeWhile (fun ch => !(ch = '&'))
    if !restRun.isEmpty && "&gt;".data.isPrefixOf (tl.drop restRun.length) then
      let cap := lcl ++ '@' :: (r2.take j ++ '.' :: restRun)
      some ("<a href=\"mailto:".data ++ cap ++ "\">".data ++ cap ++ "</a>".data,
            (tl.drop restRun.length).drop 4)
    else emailScan lcl r2 js

/-- Email autolinks: `/&lt;([^@\s]+@[^@\s]+\.[^&]+)&gt;/g`. -/
def autoEmailTry (l : List Char) : Option (List Char × List Char) :=
  if "&lt;".data.isPrefixOf l then
    let r := l.drop 4
    let lcl := r.takeWhile (fun ch => !(ch = '@') && !(jsWs ch))
    if lcl.isEmpty then none
    else
      match r.drop lcl.length with
      | '@' :: r2 =>
        let dom := r2.takeWhile (fun ch => !(ch = '@') && !(jsWs ch))
        emailScan lcl r2
          (((List.range dom.length).filter (fun j => 1 ≤ j && dom.get? j = some '.')).reverse)
      | _ => none
  else none

/-- k-fold delimiter emphasis: `d^k ([^d]+) d^k` → `pre $1 post`. -/
def delimTry (d : Char) (k : Nat) (pre post : List Char) (l : List Char) :
    Option (List Char × List Char) :=
  let delim := List.replicate k d
  if delim.isPrefixOf l then
    let r := l.drop k
    let content := r.takeWhile (fun ch => !(ch = d))
    if content.isEmpty then none
    else if delim.isPrefixOf (r.drop content.length) then
      some (pre ++ content ++ post, (r.drop content.length).drop k)
    else none
  else none

/-- Italic underscores: `/_([^_\s][^_]*)_/g` → `<em>$1</em>`. -/
def italicUnderscoreTry : List Char → Option (List Char × List Char)
  | '_' :: c :: rest =>
    if !(c = '_') && !(jsWs c) then
      let run := rest.takeWhile (fun ch => !(ch = '_'))
      match rest.drop run.length with
      | '_' :: after => some ("<em>".data ++ (c :: run) ++ "</em>".data, after)
      | _ => none
    else none
  | _ => none

/-- Forced line breaks: `/  $/gm` → `<br />`. -/
def lineBreaksPass (l : List Char) : List Char :=
  joinWith ['\n'] ((splitOnCh '\n' l).map (fun seg =>
    if "  ".data.isSuffixOf seg then seg.dropLast.dropLast ++ "<br />".data else seg))

/-- `parseInline`: the ordered substitution cascade of the source. -/
def parseInline (gfm : Bool) (text : List Char) : List Char :=
  let r := escapeHtmlL text
  let r := rewriteAll codeSpanTry r
  let r := rewriteAll imageTry r
  let r := rewriteAll linkTry r
  let r := rewriteAll autoUrlTry r
  let r := rewriteAll autoEmailTry r
  let r := rewriteAll (delimTry '*' 3 ("<strong><em>".data) ("</em></strong>".data)) r
  let r := rewriteAll (delimTry '_' 3 ("<strong><em>".data) ("</em></strong>".data)) r
  let r := rewriteAll (delimTry '*' 2 ("<strong>".data) ("</strong>".data)) r
  let r := rewriteAll (delimTry '_' 2 ("<strong>".data) ("</strong>".data)) r
  let r := rewriteAll (delimTry '*' 1 ("<em>".data) ("</em>".data)) r
  let r := rewriteAll italicUnderscoreTry r
  let r := if gfm then rewriteAll (delimTry '~' 2 ("<del>".data) ("</del>".data)) r else r
  lineBreaksPass r

/-!  ## Block parser (source: `markdownToHtml`)  -/

inductive LType where
  | ul
  | ol
deriving Repr, DecidableEq

inductive Align where
  | left
  | center
  | right
deriving Repr, DecidableEq

/-- The mutable locals of the `markdownToHtml` line loop. -/
structure MDState where
  output : List (List Char)
  inCodeBlock : Bool
  codeBlockLang : List Char
  codeBlockContent : List (List Char)
  inList : Bool
  listType : LType
  inBlockquote : Bool
  blockquoteContent : List (List Char)
  inTable : Bool
  tableRows : List (List (List Char))
  tableAlignments : List (Option Align)
deriving Repr, DecidableEq

def initState : MDState :=
  { output := [], inCodeBlock := false, codeBlockLang := [], codeBlockContent := [],
    inList := false, listType := .ul, inBlockquote := false, blockquoteContent := [],
    inTable := false, tableRows := [], tableAlignments := [] }

def alignStr : Align → List Char
  | .left => "left".data
  | .center => "center".data
  | .right => "right".data

/-- `alignments[i] ? ` style="text-align: ..."` : ''` -/
def alignAttr (aligns : List (Option Align)) (i : Nat) : List Char :=
  match aligns.getD i none with
  | some a => " style=\"text-align: ".data ++ alignStr a ++ "\"".data
  | none => []

/-- `renderTable` of the source. -/
def renderTable (gfm : Bool) (rows : List (List (List Char)))
    (aligns : List (Option Align)) : List Char :=
  match rows with
  | [] => []
  | header :: body =>
    let th := (header.enum.map (fun ic =>
      "<th".data ++ alignAttr aligns ic.1 ++ ">".data ++
      parseInline gfm (jsTrim ic.2) ++ "</th>\n".data)).flatten
    let headPart := "<table>\n<thead>\n<tr>\n".data ++ th ++ "</tr>\n</thead>\n".data
    let bodyPart :=
      if body.isEmpty then []
      else
        "<tbody>\n".data ++
        (body.map (fun row =>
          "<tr>\n".data ++
          (row.enum.map (fun ic =>
            "<td".data ++ alignAttr aligns ic.1 ++ ">".data ++
            parseInline gfm (jsTrim ic.2) ++ "</td>\n".data)).flatten ++
          "</tr>\n".data)).flatten ++
        "</tbody>\n".data
    headPart ++ bodyPart ++ "</table>".data

def closeListTag : LType → List Char
  | .ul => "</ul>".data
  | .ol => "</ol>".data

/-- `closeBlocks` of the source: flush list, blockquote and table state. -/
def closeBlocks (gfm : Bool) (s : MDState) : MDState :=
  let s1 :=
    if s.inList then
      { s with output := s.output ++ [closeListTag s.listType], inList := false }
    else s
  let s2 :=
    if s1.inBlockquote then
      { s1 with
        output := s1.output ++
          ["<blockquote>".data ++
           parseInline gfm (joinWith ['\n'] s1.blockquoteContent) ++
           "</blockquote>".data],
        blockquoteContent := [], inBlockquote := false }
    else s1
  if s2.inTable then
    { s2 with
      output := s2.output ++ [renderTable gfm s2.tableRows s2.tableAlignments],
      tableRows := [], tableAlignments := [], inTable := false }
  else s2

/-- The cell split-and-filter of the table branch. -/
def tableCells (trimmed : List Char) : List (List Char) :=
  let arr := (splitOnCh '|' trimmed).map jsTrim
  let n := arr.length
  ((arr.enum.filter (fun ic =>
      (0 < ic.1 && ic.1 < n - 1) ||
      (ic.1 = 0 && !(arr.headD []).isEmpty) ||
      (ic.1 = n - 1 && !(arr.getLastD []).isEmpty))).map (fun ic => ic.2))

/-- The separator-cell grammar `/^:?-+:?$/`. -/
def isSepCell (c : List Char) : Bool :=
  let a := if c.head? = some ':' then c.tail else c
  let ds := a.takeWhile (fun ch => ch = '-')
  !ds.isEmpty && (a.drop ds.length = [] || a.drop ds.length = [':'])

def alignOf (c : List Char) : Option Align :=
  if c.head? = some ':' && c.getLast? = some ':' then some .center
  else if c.getLast? = some ':' then some .right
  else if c.head? = some ':' then some .left
  else none

/-- ATX header recogniser `/^(#{1,6})\s+(.+)$/` on the trimmed line. -/
def atxHeader (trimmed : List Char) : Option (Nat × List Char) :=
  let hashes := trimmed.takeWhile (fun ch => ch = '#')
  let k := hashes.length
  if 1 ≤ k && k ≤ 6 then
    let rest := trimmed.drop k
    let ws := rest.takeWhile jsWs
    if ws.isEmpty then none
    else
      let txt := rest.drop ws.length
      if txt.isEmpty then none else some (k, txt)
  else none

def isEqRun (l : List Char) : Bool := !l.isEmpty && l.all (fun ch => ch = '=')

def isDashRun (l : List Char) : Bool := !l.isEmpty && l.all (fun ch => ch = '-')

/-- `/^[-*_]{3,}$/` on the line itself (setext exclusion). -/
def isRuleWord (l : List Char) : Bool :=
  l.length ≥ 3 && l.all (fun ch => ch = '-' || ch = '*' || ch = '_')

/-- `/^[-*_]{3,}$/` after removing all whitespace (horizontal rule test). -/
def isHrRule (trimmed : List Char) : Bool :=
  isRuleWord (trimmed.filter (fun ch => !(jsWs ch)))

/-- Unordered-list item `/^[-*+]\s+(.*)$/`. -/
def ulMatch (trimmed : List Char) : Option (List Char) :=
  match trimmed with
  | c :: rest =>
    if c = '-' || c = '*' || c = '+' then
      let ws := rest.takeWhile jsWs
      if ws.isEmpty then none else some (rest.drop ws.length)
    else none
  | [] => none

/-- Task-list item `/^\[([ xX])\]\s+(.*)$/`. -/
def taskMatch (item : List Char) : Option (Bool × List Char) :=
  match item with
  | '[' :: m :: ']' :: rest =>
    if m = ' ' || m = 'x' || m = 'X' then
      let ws := rest.takeWhile jsWs
      if ws.isEmpty then none
      else some (m = 'x' || m = 'X', rest.drop ws.length)
    else none
  | _ => none

/-- Ordered-list item `/^(\d+)\.\s+(.*)$/`; yields (digit run, item text). -/
def olMatch (trimmed : List Char) : Option (List Char × List Char) :=
  let digits := trimmed.takeWhile Char.isDigit
  if digits.isEmpty then none
  else
    match trimmed.drop digits.length with
    | '.' :: rest =>
      let ws := rest.takeWhile jsWs
      if ws.isEmpty then none else some (digits, rest.drop ws.length)
    | _ => none

/-- `start === 1 ? '<ol>' : `<ol start="${start}">`` -/
def olOpenTag (start : Nat) : List Char :=
  if start = 1 then "<ol>".data
  else "<ol start=\"".data ++ (Nat.repr start).data ++ "\">".data

/-- The branches after the setext-header check, in source order:
horizontal rule, blockquote, unordered list, ordered list, indented code,
paragraph. -/
def postSetextStep (gfm : Bool) (s : MDState) (line trimmed : List Char) : MDState :=
  if isHrRule trimmed then
    let s1 := closeBlocks gfm s
    { s1 with output := s1.output ++ ["<hr />".data] }
  else if trimmed.head? = some '>' then
    let s1 :=
      if !s.inBlockquote then { closeBlocks gfm s with inBlockquote := true } else s
    { s1 with blockquoteContent := s1.blockquoteContent ++ [jsTrim (trimmed.drop 1)] }
  else
    match ulMatch trimmed with
    | some item =>
      let s1 :=
        if !s.inList || !(s.listType = .ul) then
          let c := closeBlocks gfm s
          { c with inList := true, listType := .ul, output := c.output ++ ["<ul>".data] }
        else s
      (match (if gfm then taskMatch item else none) with
       | some (checked, content) =>
         { s1 with output := s1.output ++
             ["<li><input type=\"checkbox\" disabled".data ++
              (if checked then " checked".data else []) ++ " /> ".data ++
              parseInline gfm content ++ "</li>".data] }
       | none =>
         { s1 with output := s1.output ++
             ["<li>".data ++ parseInline gfm item ++ "</li>".data] })
    | none =>
      match olMatch trimmed with
      | some (digits, item) =>
        let s1 :=
          if !s.inList || !(s.listType = .ol) then
            let c := closeBlocks gfm s
            { c with
              inList := true, listType := .ol,
              output := c.output ++ [olOpenTag (digitsToNat digits)] }
          else s
        { s1 with output := s1.output ++
            ["<li>".data ++ parseInline gfm item ++ "</li>".data] }
      | none =>
        if "    ".data.isPrefixOf line || line.head? = some '\t' then
          let code := if line.head? = some '\t' then line.drop 1 else line.drop 4
          let s1 := closeBlocks gfm s
          { s1 with output := s1.output ++
              ["<pre><code>".data ++ escapeHtmlL code ++ "</code></pre>".data] }
        else
          let s1 := closeBlocks gfm s
          { s1 with output := s1.output ++
              ["<p>".data ++ parseInline gfm trimmed ++ "</p>".data] }

/-- The `<pre><code…>` fragment pushed when a code block closes (also used
for an unterminated fence at end of input). -/
def codeBlockFlush (s : MDState) : List Char :=
  "<pre><code".data ++
  (if !s.codeBlockLang.isEmpty then
     " class=\"language-".data ++ s.codeBlockLang ++ "\"".data
   else []) ++
  ">".data ++ escapeHtmlL (joinWith ['\n'] s.codeBlockContent) ++ "</code></pre>".data

/-- The normal non-table rules for a line, in source order: the
table-closing guard, ATX headers, setext headers (with the skip flag),
then the trailing branches of `postSetextStep`. -/
def nonTableStep (gfm : Bool) (s : MDState) (line : List Char)
    (nx : Option (List Char)) : MDState × Bool :=
  let trimmed := jsTrim line
  let sA := if s.inTable && !(trimmed.contains '|') then closeBlocks gfm s else s
  match atxHeader trimmed with
  | some (level, text) =>
    let s1 := closeBlocks gfm sA
    ({ s1 with output := s1.output ++
        [("<h".data ++ (Nat.repr level).data ++ ">".data) ++
         parseInline gfm text ++
         ("</h".data ++ (Nat.repr level).data ++ ">".data)] }, false)
  | none =>
    let setext : Option Nat :=
      match nx with
      | some nxl =>
        let nxt := jsTrim nxl
        if isEqRun nxt then some 1
        else if isDashRun nxt && !(isRuleWord trimmed) then some 2
        else none
      | none => none
    match setext with
    | some 1 =>
      let s1 := closeBlocks gfm sA
      ({ s1 with output := s1.output ++
          ["<h1>".data ++ parseInline gfm trimmed ++ "</h1>".data] }, true)
    | some _ =>
      let s1 := closeBlocks gfm sA
      ({ s1 with output := s1.output ++
          ["<h2>".data ++ parseInline gfm trimmed ++ "</h2>".data] }, true)
    | none => (postSetextStep gfm sA line trimmed, false)

/-- One iteration of the line loop.  `nx` is the (trimmed-on-demand)
lookahead line for setext headers; the returned flag signals the `i++`
that skips the setext underline. -/
def mdStep (gfm : Bool) (s : MDState) (line : List Char) (nx : Option (List Char)) :
    MDState × Bool :=
  let trimmed := jsTrim line
  if "```".data.isPrefixOf trimmed then
    if !s.inCodeBlock then
      ({ closeBlocks gfm s with
         inCodeBlock := true,
         codeBlockLang := jsTrim (trimmed.drop 3), codeBlockContent := [] }, false)
    else
      ({ s with
         output := s.output ++ [codeBlockFlush s],
         inCodeBlock := false, codeBlockLang := [] }, false)
  else if s.inCodeBlock then
    ({ s with codeBlockContent := s.codeBlockContent ++ [line] }, false)
  else if trimmed.isEmpty then
    (closeBlocks gfm s, false)
  else
    let hasPipe := trimmed.contains '|'
    let tblStep : Option MDState :=
      if gfm && hasPipe then
        let cells := tableCells trimmed
        if cells.all isSepCell then
          if s.tableRows.length = 1 then
            some { s with tableAlignments := cells.map alignOf, inTable := true }
          else none
        else if s.inTable || s.tableRows.isEmpty then
          let s1 := if !s.inTable then closeBlocks gfm s else s
          some { s1 with tableRows := s1.tableRows ++ [cells] }
        else none
      else none
    match tblStep with
    | some s2 => (s2, false)
    | none => nonTableStep gfm s line nx

/-- The full line loop, consuming two lines when a setext header fires.
Fuelled structural recursion; one unit of fuel per processed line suffices. -/
def mdLinesF (gfm : Bool) : Nat → MDState → List (List Char) → MDState
  | _, s, [] => s
  | 0, s, _ => s
  | n + 1, s, l :: rest =>
    match mdStep gfm s l rest.head? with
    | (s1, true) => mdLinesF gfm n s1 rest.tail
    | (s1, false) => mdLinesF gfm n s1 rest

def mdLinesAux (gfm : Bool) (s : MDState) (lines : List (List Char)) : MDState :=
  mdLinesF gfm lines.length s lines

/-- Every intermediate state of the line loop, initial state included. -/
def mdStatesF (gfm : Bool) : Nat → MDState → List (List Char) → List MDState
  | _, s, [] => [s]
  | 0, s, _ => [s]
  | n + 1, s, l :: rest =>
    s ::
      (match mdStep gfm s l rest.head? with
       | (s1, true) => mdStatesF gfm n s1 rest.tail
       | (s1, false) => mdStatesF gfm n s1 rest)

def mdStatesAux (gfm : Bool) (s : MDState) (lines : List (List Char)) : List MDState :=
  mdStatesF gfm lines.length s lines

structure MarkdownParserOptions where
  gfm : Bool
deriving Repr, DecidableEq

/-- `markdownToHtml` of the source. -/
def markdownToHtml (markdown : String) (options : MarkdownParserOptions) : String :=
  let lines := splitOnCh '\n' markdown.data
  let s := mdLinesAux options.gfm initState lines
  let s1 := closeBlocks options.gfm s
  let out := if s1.inCodeBlock then s1.output ++ [codeBlockFlush s1] else s1.output
  String.mk (joinWith ['\n'] out)

/-- The states the line loop passes through on a given document. -/
def mdScanStates (markdown : String) (gfm : Bool) : List MDState :=
  mdStatesAux gfm initState (splitOnCh '\n' markdown.data)

/-!  ## HTML → Markdown converter (source: `htmlToMarkdown`)  -/

/-- `/\s+/g → ' '`: collapse every whitespace run to one space. -/
def wsRunTry : List Char → Option (List Char × List Char)
  | [] => none
  | c :: cs =>
    if jsWs c then some ([' '], cs.dropWhile jsWs) else none

/-- `/<!--[\s\S]*?-->/g → ''`. -/
def commentTry (l : List Char) : Option (List Char × List Char) :=
  if "<!--".data.isPrefixOf l then
    match splitFirstCS ("-->".data) (l.drop 4) with
    | some (_, after) => some ([], after)
    | none => none
  else none

/-- `<tag[^>]*>` at the current position: returns the text after the `>`. -/
def tagOpenEnd (tag : List Char) (l : List Char) : Option (List Char) :=
  if ciPrefixOf ('<' :: tag) l then
    let r := l.drop (tag.length + 1)
    let junk := r.takeWhile (fun ch => !(ch = '>'))
    match r.drop junk.length with
    | _ :: rest => some rest
    | [] => none
  else none

/-- `<tag[^>]*>([\s\S]*?)</tag>` at the current position. -/
def pairedCapCI (tag : List Char) (l : List Char) : Option (List Char × List Char) :=
  match tagOpenEnd tag l with
  | some rest => splitFirstCI ("</".data ++ tag ++ ['>']) rest
  | none => none

/-- A paired-tag global replace with a content-to-replacement builder. -/
def pairedRepTry (tag : List Char) (build : List Char → List Char) (l : List Char) :
    Option (List Char × List Char) :=
  match pairedCapCI tag l with
  | some (content, after) => some (build content, after)
  | none => none

/-- `<(t₁|t₂|…)[^>]*>([\s\S]*?)</\1>`: alternatives tried in order. -/
def altPairTry (tags : List (List Char)) (build : List Char → List Char)
    (l : List Char) : Option (List Char × List Char) :=
  match tags with
  | [] => none
  | t :: ts =>
    match pairedRepTry t build l with
    | some r => some r
    | none => altPairTry ts build l

/-- The fenced-code pattern
`<pre[^>]*><code(?:\s+class="language-([^"]*)")?[^>]*>([\s\S]*?)</code></pre>`. -/
def preCodeTry (l : List Char) : Option (List Char × List Char) :=
  match tagOpenEnd ("pre".data) l with
  | some r1 =>
    if ciPrefixOf ("<code".data) r1 then
      let r2 := r1.drop 5
      let ws := r2.takeWhile jsWs
      let classLit := "class=\"language-".data
      let langPath : Option (List Char × List Char) :=
        if !ws.isEmpty && classLit.isPrefixOf (r2.drop ws.length) then
          let r3 := (r2.drop ws.length).drop classLit.length
          let lang := r3.takeWhile (fun ch => !(ch = '"'))
          match r3.drop lang.length with
          | '"' :: r4 => some (lang, r4)
          | _ => none
        else none
      let contPath : List Char → List Char → Option (List Char × List Char) :=
        fun lang r =>
          let junk := r.takeWhile (fun ch => !(ch = '>'))
          match r.drop junk.length with
          | _ :: rest =>
            match splitFirstCI ("</code></pre>".data) rest with
            | some (code, after) =>
              some ("\n".data ++ "```".data ++ lang ++ "\n".data ++
                    unescapeHtmlL code ++ "\n".data ++ "```".data ++ "\n".data, after)
            | none => none
          | [] => none
      match langPath with
      | some (lang, r4) =>
        (match contPath lang r4 with
         | some res => some res
         | none => contPath [] r2)
      | none => contPath [] r2
    else none
  | none => none

/-- `<a\s+[^>]*href="([^"]*)"[^>]*>([\s\S]*?)</a>` → `[$2]($1)`.
The greedy `[^>]*` makes the regex pick the last `href="` occurrence
before the first `>`; candidate positions are tried in that order. -/
def linkScan (r : List Char) : List Nat → Option (List Char × List Char)
  | [] => none
  | p :: ps =>
    let url := (r.drop (p + 6)).takeWhile (fun ch => !(ch = '"'))
    (match (r.drop (p + 6)).drop url.length with
     | '"' :: rest2 =>
       let junk := rest2.takeWhile (fun ch => !(ch = '>'))
       (match rest2.drop junk.length with
        | _ :: rest3 =>
          (match splitFirstCI ("</a>".data) rest3 with
           | some (txt, after) =>
             some ('[' :: txt ++ ']' :: '(' :: url ++ [')'], after)
           | none => linkScan r ps)
        | [] => linkScan r ps)
     | _ => linkScan r ps)

def linkMdTry (l : List Char) : Option (List Char × List Char) :=
  if ciPrefixOf ("<a".data) l then
    let r := l.drop 2
    match r with
    | c :: _ =>
      if jsWs c then
        let region := r.takeWhile (fun ch => !(ch = '>'))
        let cands := ((List.range region.length).filter (fun p =>
          1 ≤ p && ("href=\"".data.isPrefixOf (region.drop p)))).reverse
        linkScan r cands
      else none
    | [] => none
  else none

/-- Generic scan used by the three `<img …>` patterns: find the candidate
positions of `attr="` (last first) inside the pre-`>` region. -/
def attrCands (attrLit : List Char) (region : List Char) : List Nat :=
  ((List.range region.length).filter (fun p =>
    1 ≤ p && (attrLit.isPrefixOf (region.drop p)))).reverse

/-- `<img\s+[^>]*A="([^"]*)"[^>]*B="([^"]*)"[^>]*\/?>` (two-attribute form). -/
def imgScan2 (litB : List Char) (build : List Char → List Char → List Char)
    (r : List Char) : List Nat → Option (List Char × List Char)
  | [] => none
  | p :: ps =>
    let litAlen := 5
    let va := (r.drop (p + litAlen)).takeWhile (fun ch => !(ch = '"'))
    (match (r.drop (p + litAlen)).drop va.length with
     | '"' :: rest2 =>
       let region2 := rest2.takeWhile (fun ch => !(ch = '>'))
       let inner : Option (List Char × List Char) :=
         (((List.range region2.length).filter (fun q =>
             litB.isPrefixOf (region2.drop q))).reverse).firstM (fun q =>
           let vb := (rest2.drop (q + litB.length)).takeWhile (fun ch => !(ch = '"'))
           match (rest2.drop (q + litB.length)).drop vb.length with
           | '"' :: rest3 =>
             let junk := rest3.takeWhile (fun ch => !(ch = '>'))
             (match rest3.drop junk.length with
              | _ :: after => some (build va vb, after)
              | [] => none)
           | _ => none)
       (match inner with
        | some res => some res
        | none => imgScan2 litB build r ps)
     | _ => imgScan2 litB build r ps)

def imgHeadRegion (l : List Char) : Option (List Char) :=
  if ciPrefixOf ("<img".data) l then
    let r := l.drop 4
    match r with
    | c :: _ => if jsWs c then some r else none
    | [] => none
  else none

/-- `<img\s+[^>]*src="([^"]*)"[^>]*alt="([^"]*)"[^>]*\/?>` → `![$2]($1)`. -/
def imgSrcAltTry (l : List Char) : Option (List Char × List Char) :=
  match imgHeadRegion l with
  | some r =>
    imgScan2 ("alt=\"".data)
      (fun src alt => '!' :: '[' :: alt ++ ']' :: '(' :: src ++ [')'])
      r (attrCands ("src=\"".data) (r.takeWhile (fun ch => !(ch = '>'))))
  | none => none

/-- `<img\s+[^>]*alt="([^"]*)"[^>]*src="([^"]*)"[^>]*\/?>` → `![$1]($2)`. -/
def imgAltSrcTry (l : List Char) : Option (List Char × List Char) :=
  match imgHeadRegion l with
  | some r =>
    imgScan2 ("src=\"".data)
      (fun alt src => '!' :: '[' :: alt ++ ']' :: '(' :: src ++ [')'])
      r (attrCands ("alt=\"".data) (r.takeWhile (fun ch => !(ch = '>'))))
  | none => none

/-- `<img\s+[^>]*src="([^"]*)"[^>]*\/?>` → `![]($1)`. -/
def imgSrcTry (l : List Char) : Option (List Char × List Char) :=
  match imgHeadRegion l with
  | some r =>
    (attrCands ("src=\"".data) (r.takeWhile (fun ch => !(ch = '>')))).firstM (fun p =>
      let url := (r.drop (p + 5)).takeWhile (fun ch => !(ch = '"'))
      match (r.drop (p + 5)).drop url.length with
      | '"' :: rest2 =>
        let junk := rest2.takeWhile (fun ch => !(ch = '>'))
        (match rest2.drop junk.length with
         | _ :: after => some ('!' :: '[' :: ']' :: '(' :: url ++ [')'], after)
         | [] => none)
      | _ => none)
  | none => none

/-- The blockquote replacer: prefix each trimmed line with `> `. -/
def blockquoteBuild (content : List Char) : List Char :=
  '\n' :: joinWith ['\n']
    ((splitOnCh '\n' (jsTrim content)).map (fun ln => "> ".data ++ jsTrim ln)) ++ ['\n']

/-- `<li[^>]*>([\s\S]*?)</li>` with a real `'- $1\n'` string replacement. -/
def ulLiTry (l : List Char) : Option (List Char × List Char) :=
  match pairedCapCI ("li".data) l with
  | some (content, after) => some ("- ".data ++ content ++ ['\n'], after)
  | none => none

def ulBuild (content : List Char) : List Char :=
  '\n' :: rewriteAll ulLiTry content ++ ['\n']

/-- The ordered-list replacer: the source callback returns a template
literal containing the two raw characters `$1`, so the item text is
replaced by a literal `$1` (replacement patterns are inert in a
function-valued `replace`). -/
def olLiF : Nat → Nat → List Char → List Char
  | _, _, [] => []
  | 0, _, l => l
  | n + 1, idx, c :: cs =>
    match pairedCapCI ("li".data) (c :: cs) with
    | some (_, after) =>
      ((Nat.repr idx).data ++ ". $1\n".data) ++ olLiF n (idx + 1) after
    | none => c :: olLiF n idx cs

def olBuild (content : List Char) : List Char :=
  '\n' :: olLiF content.length 1 content ++ ['\n']

/-- First (non-global `.match`) paired occurrence of a tag in `l`. -/
def findFirstPairedF (tag : List Char) : Nat → List Char → Option (List Char)
  | _, [] => none
  | 0, _ => none
  | n + 1, c :: cs =>
    match pairedCapCI tag (c :: cs) with
    | some (content, _) => some content
    | none => findFirstPairedF tag n cs

def findFirstPaired (tag l : List Char) : Option (List Char) :=
  findFirstPairedF tag l.length l

/-- All paired occurrences of a tag, in order (contents, untrimmed). -/
def collectPairedF (tag : List Char) : Nat → List Char → List (List Char)
  | _, [] => []
  | 0, _ => []
  | n + 1, c :: cs =>
    match pairedCapCI tag (c :: cs) with
    | some (content, after) => content :: collectPairedF tag n after
    | none => collectPairedF tag n cs

def collectPaired (tag l : List Char) : List (List Char) :=
  collectPairedF tag l.length l

def splitFirstEither (p1 p2 : List Char) : List Char → Option (List Char × List Char)
  | [] => none
  | c :: cs =>
    if ciPrefixOf p1 (c :: cs) then some ([], (c :: cs).drop p1.length)
    else if ciPrefixOf p2 (c :: cs) then some ([], (c :: cs).drop p2.length)
    else
      match splitFirstEither p1 p2 cs with
      | some (b, a) => some (c :: b, a)
      | none => none

/-- `<t[dh][^>]*>([\s\S]*?)</t[dh]>`: a cell opened by `td` or `th` and
closed by whichever closer comes first. -/
def cellTry (l : List Char) : Option (List Char × List Char) :=
  if ciPrefixOf ("<td".data) l || ciPrefixOf ("<th".data) l then
    let r := l.drop 3
    let junk := r.takeWhile (fun ch => !(ch = '>'))
    match r.drop junk.length with
    | _ :: rest => splitFirstEither ("</td>".data) ("</th>".data) rest
    | [] => none
  else none

def collectCellsF : Nat → List Char → List (List Char)
  | _, [] => []
  | 0, _ => []
  | n + 1, c :: cs =>
    match cellTry (c :: cs) with
    | some (content, after) => jsTrim content :: collectCellsF n after
    | none => collectCellsF n cs

def collectCells (l : List Char) : List (List Char) := collectCellsF l.length l

/-- The `<table>` replacer of `htmlToMarkdown`. -/
def tableBuild (tableContent : List Char) : List Char :=
  let headerCells :=
    match findFirstPaired ("thead".data) tableContent with
    | some tc => (collectPaired ("th".data) tc).map jsTrim
    | none => []
  let rows0 := if headerCells.isEmpty then [] else [headerCells]
  let bodyContent :=
    match findFirstPaired ("tbody".data) tableContent with
    | some bc => bc
    | none => tableContent
  let trRows := ((collectPaired ("tr".data) bodyContent).map collectCells).filter
    (fun cs => !cs.isEmpty)
  let rows := rows0 ++ trRows
  match rows with
  | [] => []
  | r0 :: rbody =>
    let colCount := (rows.map List.length).foldl max 0
    let rowLine := fun (r : List (List Char)) =>
      "| ".data ++ joinWith (" | ".data) (r.map (fun c => if c.isEmpty then [' '] else c)) ++
      " |\n".data
    '\n' :: rowLine r0 ++
    ("| ".data ++ joinWith (" | ".data) (List.replicate colCount ("---".data)) ++ " |\n".data) ++
    (rbody.map rowLine).flatten ++ ['\n']

/-- `/<hr\s*\/?>/gi` → `\n---\n`. -/
def hrTry (l : List Char) : Option (List Char × List Char) :=
  if ciPrefixOf ("<hr".data) l then
    let r := l.drop 3
    let ws := r.takeWhile jsWs
    match r.drop ws.length with
    | '/' :: '>' :: after => some ("\n---\n".data, after)
    | '>' :: after => some ("\n---\n".data, after)
    | _ => none
  else none

/-- `/<br\s*\/?>/gi` → two spaces and a newline. -/
def brTry (l : List Char) : Option (List Char × List Char) :=
  if ciPrefixOf ("<br".data) l then
    let r := l.drop 3
    let ws := r.takeWhile jsWs
    match r.drop ws.length with
    | '/' :: '>' :: after => some ("  \n".data, after)
    | '>' :: after => some ("  \n".data, after)
    | _ => none
  else none

/-- `/<[^>]+>/g → ''`. -/
def stripTagTry : List Char → Option (List Char × List Char)
  | [] => none
  | c :: cs =>
    if c = '<' then
      let junk := cs.takeWhile (fun ch => !(ch = '>'))
      if junk.isEmpty then none
      else
        match cs.drop junk.length with
        | _ :: after => some ([], after)
        | [] => none
    else none

/-- `/\n{3,}/g → '\n\n'`. -/
def collapseNlTry : List Char → Option (List Char × List Char)
  | [] => none
  | c :: cs =>
    if c = '\n' then
      let run := cs.takeWhile (fun ch => ch = '\n')
      if run.length + 1 ≥ 3 then some ("\n\n".data, cs.drop run.length) else none
    else none

/-- `htmlToMarkdown` of the source: the ordered substitution cascade. -/
def htmlToMarkdown (html : String) : String :=
  let r := html.data
  let r := rewriteAll wsRunTry r
  let r := rewriteAll commentTry r
  let r := rewriteAll (pairedRepTry ("h1".data) (fun c => "\n# ".data ++ c ++ ['\n'])) r
  let r := rewriteAll (pairedRepTry ("h2".data) (fun c => "\n## ".data ++ c ++ ['\n'])) r
  let r := rewriteAll (pairedRepTry ("h3".data) (fun c => "\n### ".data ++ c ++ ['\n'])) r
  let r := rewriteAll (pairedRepTry ("h4".data) (fun c => "\n#### ".data ++ c ++ ['\n'])) r
  let r := rewriteAll (pairedRepTry ("h5".data) (fun c => "\n##### ".data ++ c ++ ['\n'])) r
  let r := rewriteAll (pairedRepTry ("h6".data) (fun c => "\n###### ".data ++ c ++ ['\n'])) r
  let r := rewriteAll (altPairTry ["strong".data, "b".data]
    (fun c => "**".data ++ c ++ "**".data)) r
  let r := rewriteAll (altPairTry ["em".data, "i".data]
    (fun c => "*".data ++ c ++ "*".data)) r
  let r := rewriteAll (altPairTry ["del".data, "s".data, "strike".data]
    (fun c => "~~".data ++ c ++ "~~".data)) r
  let r := rewriteAll preCodeTry r
  let r := rewriteAll (pairedRepTry ("code".data) (fun c => btick :: c ++ [btick])) r
  let r := rewriteAll linkMdTry r
  let r := rewriteAll imgSrcAltTry r
  let r := rewriteAll imgAltSrcTry r
  let r := rewriteAll imgSrcTry r
  let r := rewriteAll (pairedRepTry ("blockquote".data) blockquoteBuild) r
  let r := rewriteAll (pairedRepTry ("ul".data) ulBuild) r
  let r := rewriteAll (pairedRepTry ("ol".data) olBuild) r
  let r := rewriteAll (pairedRepTry ("table".data) tableBuild) r
  let r := rewriteAll hrTry r
  let r := rewriteAll brTry r
  let r := rewriteAll (pairedRepTry ("p".data) (fun c => '\n' :: c ++ ['\n'])) r
  let r := rewriteAll (altPairTry ["div".data, "span".data] id) r
  let r := rewriteAll stripTagTry r
  let r := unescapeHtmlL r
  let r := rewriteAll collapseNlTry r
  String.mk (jsTrim r)

/-!  # Claim analysis

## C10: output discipline of `escapeHtml`  -/

/-- Per-character escape table realised by the five replaces of `escapeHtml`. -/
def escChar (c : Char) : List Char :=
  if c = '&' then "&amp;".data
  else if c = '<' then "&lt;".data
  else if c = '>' then "&gt;".data
  else if c = '"' then "&quot;".data
  else if c = '\'' then "&#39;".data
  else [c]

/-- None of `<`, `>`, `"`, `'` occurs in the string. -/
def noSpecials (l : List Char) : Bool :=
  l.all (fun c => !(c = '<' || c = '>' || c = '"' || c = '\''))

/-- One of the five entity tails follows (to be read after an `&`). -/
def entityTail (l : List Char) : Bool :=
  "amp;".data.isPrefixOf l || "lt;".data.isPrefixOf l || "gt;".data.isPrefixOf l ||
  "quot;".data.isPrefixOf l || "#39;".data.isPrefixOf l

/-- Every `&` in the string begins one of the five entities
`&amp; &lt; &gt; &quot; &#39;`. -/
def ampOk : List Char → Bool
  | [] => true
  | c :: rest => (if c = '&' then entityTail rest else true) && ampOk rest

theorem replaceCh_append (c : Char) (rep a b : List Char) :
    replaceCh c rep (a ++ b) = replaceCh c rep a ++ replaceCh c rep b := by
  induction a with
  | nil => rfl
  | cons x xs ih =>
    simp only [List.cons_append, replaceCh, ih]
    split <;> simp [ih]

theorem escapeHtmlL_append (a b : List Char) :
    escapeHtmlL (a ++ b) = escapeHtmlL a ++ escapeHtmlL b := by
  simp [escapeHtmlL, replaceCh_append]

theorem escapeHtmlL_single (c : Char) : escapeHtmlL [c] = escChar c := by
  by_cases h1 : c = '&'
  · subst h1; decide
  · by_cases h2 : c = '<'
    · subst h2; decide
    · by_cases h3 : c = '>'
      · subst h3; decide
      · by_cases h4 : c = '"'
        · subst h4; decide
        · by_cases h5 : c = '\''
          · subst h5; decide
          · simp [escapeHtmlL, replaceCh, escChar, h1, h2, h3, h4, h5]

theorem escapeHtmlL_cons (c : Char) (l : List Char) :
    escapeHtmlL (c :: l) = escChar c ++ escapeHtmlL l := by
  have h : (c :: l) = [c] ++ l := rfl
  rw [h, escapeHtmlL_append, escapeHtmlL_single]

theorem isPrefixOf_self_app (l r : List Char) : l.isPrefixOf (l ++ r) = true := by
  induction l with
  | nil => simp [List.isPrefixOf]
  | cons x xs ih => simp [List.isPrefixOf, ih]

theorem ampOk_escChar_append (c : Char) (r : List Char) :
    ampOk (escChar c ++ r) = ampOk r := by
  by_cases h1 : c = '&'
  · subst h1
    simp [escChar, ampOk, entityTail, isPrefixOf_self_app]
  · by_cases h2 : c = '<'
    · subst h2
      simp [escChar, ampOk, entityTail, isPrefixOf_self_app]
    · by_cases h3 : c = '>'
      · subst h3
        simp [escChar, ampOk, entityTail, isPrefixOf_self_app]
      · by_cases h4 : c = '"'
        · subst h4
          simp [escChar, ampOk, entityTail, isPrefixOf_self_app]
        · by_cases h5 : c = '\''
          · subst h5
            simp [escChar, ampOk, entityTail, isPrefixOf_self_app]
          · simp [escChar, ampOk, h1, h2, h3, h4, h5]

theorem noSpecials_escChar (c : Char) : noSpecials (escChar c) = true := by
  by_cases h1 : c = '&'
  · subst h1; decide
  · by_cases h2 : c = '<'
    · subst h2; decide
    · by_cases h3 : c = '>'
      · subst h3; decide
      · by_cases h4 : c = '"'
        · subst h4; decide
        · by_cases h5 : c = '\''
          · subst h5; decide
          · simp [noSpecials, escChar, h1, h2, h3, h4, h5]

theorem escGood (l : List Char) :
    noSpecials (escapeHtmlL l) = true ∧ ampOk (escapeHtmlL l) = true := by
  induction l with
  | nil => decide
  | cons c cs ih =>
    rw [escapeHtmlL_cons]
    refine ⟨?_, ?_⟩
    · have hc := noSpecials_escChar c
      simp only [noSpecials, List.all_append] at hc ⊢
      simp [hc, ih.1, noSpecials] at *
      exact ⟨hc, ih.1⟩
    · rw [ampOk_escChar_append]
      exact ih.2

/-- C10: for every string `s`, `escapeHtml s` contains none of the characters
`<`, `>`, `"`, `'`, and every `&` in the output begins one of the five
entities `&amp;`, `&lt;`, `&gt;`, `&quot;`, `&#39;`. -/
theorem c10_escapeHtml_discipline (s : String) :
    noSpecials (escapeHtml s).data = true ∧ ampOk (escapeHtml s).data = true := by
  simpa [escapeHtml] using escGood s.data

/-!  ## C3: characterization of `isSafeUrl`  -/

/-- The claim's acceptance condition read literally on the raw `url` string
(no trimming, case-sensitive prefixes). -/
def isSafeUrlClaim (url : String) : Bool :=
  url.data.isEmpty || "/".data.isPrefixOf url.data || "#".data.isPrefixOf url.data ||
  "http://".data.isPrefixOf url.data || "https://".data.isPrefixOf url.data ||
  "mailto:".data.isPrefixOf url.data || "tel:".data.isPrefixOf url.data ||
  !(url.data.contains ':')

/-- The claim's acceptance condition applied, as the code does, to the
trimmed and lowercased url. -/
def isSafeUrlSpecTL (url : String) : Bool :=
  let t := lowerStr (jsTrim url.data)
  t.isEmpty || "/".data.isPrefixOf t || "#".data.isPrefixOf t ||
  "http://".data.isPrefixOf t || "https://".data.isPrefixOf t ||
  "mailto:".data.isPrefixOf t || "tel:".data.isPrefixOf t ||
  !(t.contains ':')

theorem contains_of_isPrefixOf (p t : List Char) (c : Char)
    (hp : p.isPrefixOf t = true) (hc : c ∈ p) : t.contains c = true := by
  rcases List.isPrefixOf_iff_prefix.mp hp with ⟨r, rfl⟩
  simp only [List.contains, List.elem_iff]
  exact List.mem_append_left r hc

/-- Counterexample to C3 as frozen: the code lowercases (and trims) before
testing, so `HTTP://a` is accepted although the claim's literal reading
(`url` contains `:` and matches no listed prefix) demands rejection. -/
theorem c3_counterexample :
    isSafeUrl "HTTP://a" = true ∧ isSafeUrlClaim "HTTP://a" = false := by
  decide

/-- C3 amended: the characterization holds for the trimmed, lowercased url:
`isSafeUrl url` is true exactly when that normalised string is empty, starts
with `/`, `#`, `http://`, `https://`, `mailto:` or `tel:`, or contains no
`:` — and false otherwise, in particular for `javascript:`, `data:`,
`vbscript:` and `file:` schemes. -/
theorem c3_isSafeUrl_characterization (url : String) :
    isSafeUrl url = isSafeUrlSpecTL url := by
  unfold isSafeUrl isSafeUrlL isSafeUrlSpecTL
  set t := lowerStr (jsTrim url.data) with ht
  by_cases hA : (t.isEmpty || "/".data.isPrefixOf t || "#".data.isPrefixOf t ||
      "http://".data.isPrefixOf t || "https://".data.isPrefixOf t ||
      "mailto:".data.isPrefixOf t || "tel:".data.isPrefixOf t) = true
  · simp only [hA]
    simp only [Bool.or_eq_true] at hA
    rcases hA with ((((((h | h) | h) | h) | h) | h) | h) <;> simp [h]
  · have hA2 : (t.isEmpty || "/".data.isPrefixOf t || "#".data.isPrefixOf t ||
        "http://".data.isPrefixOf t || "https://".data.isPrefixOf t ||
        "mailto:".data.isPrefixOf t || "tel:".data.isPrefixOf t) = false :=
      Bool.eq_false_iff.mpr hA
    simp only [Bool.or_eq_true] at hA2
    simp only [Bool.or_eq_false_iff] at hA2
    obtain ⟨⟨⟨⟨⟨⟨h1, h2⟩, h3⟩, h4⟩, h5⟩, h6⟩, h7⟩ := hA2
    simp only [h1, h2, h3, h4, h5, h6, h7, Bool.false_or, if_neg, Bool.or_self]
    by_cases hB : ("javascript:".data.isPrefixOf t || "data:".data.isPrefixOf t ||
        "vbscript:".data.isPrefixOf t || "file:".data.isPrefixOf t) = true
    · have hcolon : t.contains ':' = true := by
        simp only [Bool.or_eq_true] at hB
        rcases hB with ((h | h) | h) | h <;>
          exact contains_of_isPrefixOf _ _ _ h (by decide)
      simp [hB, hcolon]
      exact List.elem_iff.mp hcolon
    · have hB2 := Bool.eq_false_iff.mpr hB
      simp [hB2]

/-!  ## C1: the sanitizer safety invariant  -/

/-- C1 (code bug): `sanitizeHtml` can return html still containing
`<script`.  The unterminated input `<script` passes through untouched, and
the input `<a<scr<style></style>ipt src=x>` comes out as
`<a<script src="x">`: removing the `<style></style>` pair reassembles a
complete script tag, which the attribute pass then rewrites and the final
pass keeps because the match starting at `<a` is tag-named `a`, a safe tag. -/
theorem c1_script_survives :
    (sanitizeHtml "<script").html = "<script" ∧
    ("<script".data <:+: (sanitizeHtml "<script").html.data) ∧
    (sanitizeHtml "<a<scr<style></style>ipt src=x>").html = "<a<script src=\"x\">" ∧
    ("<script src=\"x\">".data <:+:
      (sanitizeHtml "<a<scr<style></style>ipt src=x>").html.data) := by
  decide

/-!  ## C2: idempotence of `sanitizeHtml`  -/

/-- C2 (code bug): `sanitizeHtml` is not idempotent on its html output.
Sanitizing `<a<sc<style></style>ript>` yields `<a<script>` (the style
removal reassembles a script tag that the final pass keeps inside the
`<a…>` match); sanitizing that output again yields `<a`. -/
theorem c2_not_idempotent :
    (sanitizeHtml "<a<sc<style></style>ript>").html = "<a<script>" ∧
    (sanitizeHtml ((sanitizeHtml "<a<sc<style></style>ript>").html)).html = "<a" ∧
    (sanitizeHtml ((sanitizeHtml "<a<sc<style></style>ript>").html)).html ≠
      (sanitizeHtml "<a<sc<style></style>ript>").html := by
  decide

/-!  ## C4: `removedCount` accounting  -/

/-- Counterexample to C4 as frozen: the input below removes two paired
`<script>` occurrences (one global replace, counted once) and drops the
non-allow-listed attribute `foo` (not counted), so `removedCount` is 1
where the claim demands 3. -/
theorem c4_counterexample :
    sanitizeHtml "<script>a</script><script>b</script><p foo=\"1\">x</p>" =
      ⟨"<p>x</p>", 1⟩ := by
  decide

/-- An attribute the stage-2 replacer drops with a count: event handler. -/
def dropsEventHandler (a : List Char × List Char) : Bool := isEventHandler a.1

/-- An attribute the stage-2 replacer drops with a count: allow-listed
`href`/`src` whose value fails `isSafeUrl`. -/
def dropsUnsafeUrl (a : List Char × List Char) : Bool :=
  !(isEventHandler a.1) && isAllowedAttrName a.1 &&
  (a.1 = "href".data || a.1 = "src".data) && !(isSafeUrlL a.2)

/-- The final pass counts exactly the matched tag occurrences whose
(lowercased) name is not in the safe list — one per stripped tag. -/
theorem stage3_count : ∀ (n : Nat) (l : List Char),
    (rewriteCF stage3Try n l).2 =
      ((stage3TagsF n l).filter (fun t => !(SAFE_TAGS.contains (lowerStr t)))).length := by
  intro n
  induction n with
  | zero =>
    intro l
    cases l <;> simp [rewriteCF, stage3TagsF]
  | succ n ih =>
    intro l
    cases l with
    | nil => simp [rewriteCF, stage3TagsF]
    | cons c cs =>
      cases htok : tagTokenTry (c :: cs) with
      | none =>
        simp [rewriteCF, stage3TagsF, stage3Try, htok, ih]
      | some tpl =>
        obtain ⟨name, txt, after⟩ := tpl
        by_cases hmem : lowerStr name ∈ SAFE_TAGS
        · simp [rewriteCF, stage3TagsF, stage3Try, htok, hmem, ih]
        · simp [rewriteCF, stage3TagsF, stage3Try, htok, hmem, ih]
          omega

/-- C4 amended: the attribute filter increments `removedCount` exactly once
per dropped event-handler attribute and once per dropped unsafe `href`/`src`
value — dropping an attribute that is merely outside the allow-list adds
nothing; each dangerous-tag pass adds at most 1 per replace call (2 per
tag), however many occurrences it removes; and the final pass increments
it exactly once per stripped tag occurrence not in the allow-list. -/
theorem c4_removedCount_accounting :
    (∀ attrs : List (List Char × List Char),
      (processAttrs attrs).2 =
        attrs.countP dropsEventHandler + attrs.countP dropsUnsafeUrl) ∧
    (∀ l : List Char, (dangerousPass l).2 ≤ 2 * DANGEROUS_TAGS.length) ∧
    (∀ l : List Char, (rewriteC stage3Try l).2 =
      ((stage3Tags l).filter (fun t => !(SAFE_TAGS.contains (lowerStr t)))).length) := by
  refine ⟨?_, ?_, ?_⟩
  · intro attrs
    induction attrs with
    | nil => rfl
    | cons a rest ih =>
      obtain ⟨name, v⟩ := a
      by_cases h1 : isEventHandler name = true
      · simp [processAttrs, List.countP_cons, dropsEventHandler, dropsUnsafeUrl, h1, ih]
        omega
      · have h1f : isEventHandler name = false := Bool.eq_false_iff.mpr h1
        by_cases h2 : isAllowedAttrName name = true
        · by_cases h3 : ((name = "href".data || name = "src".data) &&
              !(isSafeUrlL v)) = true
          · simp [processAttrs, List.countP_cons, dropsEventHandler, dropsUnsafeUrl,
              h1f, h2, h3, ih]
            omega
          · have h3f := Bool.eq_false_iff.mpr h3
            simp [processAttrs, List.countP_cons, dropsEventHandler, dropsUnsafeUrl,
              h1f, h2, h3f, ih]
        · have h2f : isAllowedAttrName name = false := Bool.eq_false_iff.mpr h2
          simp [processAttrs, List.countP_cons, dropsEventHandler, dropsUnsafeUrl,
            h1f, h2f, ih]
  · intro l
    have step : ∀ (acc : List Char × Nat) (tag : List Char),
        (dangerousStep acc tag).2 ≤ acc.2 + 2 := by
      intro acc tag
      simp only [dangerousStep]
      split <;> split <;> omega
    have fold : ∀ (tags : List (List Char)) (acc : List Char × Nat),
        (tags.foldl dangerousStep acc).2 ≤ acc.2 + 2 * tags.length := by
      intro tags
      induction tags with
      | nil => intro acc; simp
      | cons t ts ih =>
        intro acc
        calc (List.foldl dangerousStep (dangerousStep acc t) ts).2
            ≤ (dangerousStep acc t).2 + 2 * ts.length := ih _
          _ ≤ acc.2 + 2 + 2 * ts.length := by
              have := step acc t; omega
          _ ≤ acc.2 + 2 * (t :: ts).length := by
              simp [List.length_cons]; omega
    have h := fold DANGEROUS_TAGS (l, 0)
    simpa [dangerousPass] using h
  · intro l
    simpa [rewriteC, stage3Tags] using stage3_count l.length l

/-!  ## C5: mutual exclusion of open blocks  -/

/-- At most one of the code-block, list and blockquote states is open. -/
def excl3 (s : MDState) : Bool :=
  !(s.inCodeBlock && s.inList) && !(s.inCodeBlock && s.inBlockquote) &&
  !(s.inList && s.inBlockquote)

theorem closeBlocks_flags (gfm : Bool) (s : MDState) :
    (closeBlocks gfm s).inList = false ∧ (closeBlocks gfm s).inBlockquote = false ∧
    (closeBlocks gfm s).inCodeBlock = s.inCodeBlock := by
  simp only [closeBlocks]
  split <;> split <;> split <;> simp_all

theorem excl3_closeBlocks (gfm : Bool) (s : MDState) :
    excl3 (closeBlocks gfm s) = true := by
  obtain ⟨h1, h2, _⟩ := closeBlocks_flags gfm s
  simp [excl3, h1, h2]

theorem postSetext_excl3 (gfm : Bool) (s : MDState) (line trimmed : List Char)
    (hs : excl3 s = true) (hcb : s.inCodeBlock = false) :
    excl3 (postSetextStep gfm s line trimmed) = true := by
  obtain ⟨hc1, hc2, hc3⟩ := closeBlocks_flags gfm s
  simp only [postSetextStep]
  repeat' split
  all_goals simp_all [excl3]

theorem nonTableStep_excl3 (gfm : Bool) (s : MDState) (line : List Char)
    (nx : Option (List Char)) (hs : excl3 s = true) (hcbf : s.inCodeBlock = false) :
    excl3 (nonTableStep gfm s line nx).1 = true := by
  have hc := closeBlocks_flags gfm s
  simp only [nonTableStep]
  have hA : excl3 (if s.inTable && !((jsTrim line).contains '|')
      then closeBlocks gfm s else s) = true := by
    split
    · exact excl3_closeBlocks gfm s
    · exact hs
  have hAcb : (if s.inTable && !((jsTrim line).contains '|')
      then closeBlocks gfm s else s).inCodeBlock = false := by
    split
    · rw [hc.2.2]; exact hcbf
    · exact hcbf
  set sA := (if s.inTable && !((jsTrim line).contains '|')
      then closeBlocks gfm s else s) with hSA
  have hcA := closeBlocks_flags gfm sA
  split
  · -- ATX header
    simp [excl3, hcA.1, hcA.2.1]
  · split
    · -- setext h1
      simp [excl3, hcA.1, hcA.2.1]
    · -- setext h2
      simp [excl3, hcA.1, hcA.2.1]
    · -- past setext
      exact postSetext_excl3 gfm sA line (jsTrim line) hA hAcb

theorem mdStep_excl3 (gfm : Bool) (s : MDState) (line : List Char)
    (nx : Option (List Char)) (hs : excl3 s = true) :
    excl3 (mdStep gfm s line nx).1 = true := by
  have hc := closeBlocks_flags gfm s
  simp only [mdStep]
  split
  · -- a fence line
    split
    · -- opening a code block
      simp [excl3, hc.1, hc.2.1]
    · -- closing a code block
      revert hs; simp [excl3]
  · split
    · -- a code-block content line
      revert hs; simp [excl3]
    · split
      · -- a blank line
        exact excl3_closeBlocks gfm s
      · -- the remaining branches
        rename_i hfence hincode hblank
        have hcbf : s.inCodeBlock = false := by
          revert hincode; simp
        split
        · -- the table branch consumed the line
          rename_i s2 heq
          split at heq
          · split at heq
            · split at heq
              · -- alignment row accepted: only inTable changes
                injection heq with h2
                subst h2
                revert hs; simp [excl3]
              · exact absurd heq (by simp)
            · split at heq
              · -- a row collected
                injection heq with h2
                subst h2
                split
                · have hcb2 := closeBlocks_flags gfm s
                  simp [excl3, hcb2.1, hcb2.2.1]
                · revert hs; simp [excl3]
              · exact absurd heq (by simp)
          · exact absurd heq (by simp)
        · -- the table branch fell through
          exact nonTableStep_excl3 gfm s line nx hs hcbf

theorem mdStatesF_excl3 (gfm : Bool) :
    ∀ (n : Nat) (s : MDState) (lines : List (List Char)), excl3 s = true →
      ∀ t ∈ mdStatesF gfm n s lines, excl3 t = true := by
  intro n
  induction n with
  | zero =>
    intro s lines hs t ht
    cases lines <;> simp [mdStatesF] at ht <;> simp [ht, hs]
  | succ n ih =>
    intro s lines hs t ht
    cases lines with
    | nil =>
      simp [mdStatesF] at ht
      simp [ht, hs]
    | cons l rest =>
      simp only [mdStatesF, List.mem_cons] at ht
      rcases ht with ht | ht
      · simp [ht, hs]
      · rcases hstep : mdStep gfm s l rest.head? with ⟨s1, skip⟩
        rw [hstep] at ht
        have hs1 : excl3 s1 = true := by
          have h := mdStep_excl3 gfm s l rest.head? hs
          rw [hstep] at h
          exact h
        cases skip
        · exact ih s1 rest hs1 t ht
        · exact ih s1 rest.tail hs1 t ht

/-- Counterexample to C5 as frozen: on `a|b`, `- x`, `-|-` the collected
table row survives `closeBlocks` (it is only flushed when `inTable` is
set), a list opens on top of the stale buffer, and the alignment row then
opens the table without closing the list — a reachable state has both
`inList` and `inTable` set. -/
theorem c5_counterexample :
    (mdScanStates "a|b\n- x\n-|-" true).any (fun s => s.inList && s.inTable) = true := by
  decide

/-- C5 amended: throughout the scan, the code-block, list and blockquote
states are mutually exclusive (at most one of the three is open in every
reachable state); the table state is excluded from the invariant because
the pending row buffer survives `closeBlocks` while `inTable` is false. -/
theorem c5_block_exclusion (gfm : Bool) (md : String) :
    ∀ s ∈ mdScanStates md gfm, excl3 s = true := by
  intro s hs
  exact mdStatesF_excl3 gfm _ initState _ (by decide) s hs

/-- Witness for `c5_block_exclusion` at a concrete document and state. -/
theorem c5_block_exclusion_witness :
    (initState ∈ mdScanStates "a" true) ∧ excl3 initState = true := by
  refine ⟨by decide, ?_⟩
  exact c5_block_exclusion true "a" initState (by decide)

/-!  ## C6: a failed table (alignment row missing)  -/

/-- Counterexample to C6 as frozen: with `a|b` collected as a candidate
header and `x|y` failing the alignment grammar, the second line is rendered
as a paragraph but the first line is silently discarded — it is not
rendered as ordinary text (no `a` appears in the output at all). -/
theorem c6_counterexample :
    markdownToHtml "a|b\nx|y" ⟨true⟩ = "<p>x|y</p>" ∧
    ¬ (['a'] <:+: (markdownToHtml "a|b\nx|y" ⟨true⟩).data) := by
  decide

/-- C6 amended: when table collection has started with one collected row
and the next `|` line fails the alignment-row grammar, that line is handled
entirely by the normal non-table rules (proved for every such state and
line) and no table is emitted at that point; the collected first row is
not rendered as ordinary text — it stays buffered, appearing in no output
(second conjunct pair) unless a later alignment row revives it into a
table header after all (final conjunct). -/
theorem c6_failed_table_behaviour :
    (∀ (gfm : Bool) (s : MDState) (line : List Char) (nx : Option (List Char)),
      s.inCodeBlock = false →
      "```".data.isPrefixOf (jsTrim line) = false →
      (jsTrim line).contains '|' = true →
      s.inTable = false →
      s.tableRows.length = 1 →
      (tableCells (jsTrim line)).all isSepCell = false →
      mdStep gfm s line nx = nonTableStep gfm s line nx) ∧
    markdownToHtml "a|b\nx*y*|z" ⟨true⟩ = "<p>x<em>y</em>|z</p>" ∧
    ¬ (['a'] <:+: (markdownToHtml "a|b\nx*y*|z" ⟨true⟩).data) ∧
    markdownToHtml "a|b\nx|y\n-|-" ⟨true⟩ =
      "<p>x|y</p>\n<table>\n<thead>\n<tr>\n<th>a</th>\n<th>b</th>\n</tr>\n</thead>\n</table>" := by
  refine ⟨?_, by decide, by decide, by decide⟩
  intro gfm s line nx hcb hfence hpipe hit hrows hsep
  have hne : (jsTrim line).isEmpty = false := by
    cases h : jsTrim line with
    | nil => rw [h] at hpipe; simp [List.contains] at hpipe
    | cons a as => simp
  have hempt : s.tableRows.isEmpty = false := by
    cases hr : s.tableRows with
    | nil => rw [hr] at hrows; simp at hrows
    | cons a as => simp
  simp [mdStep, hfence, hcb, hne, hpipe, hsep, hit, hempt]

/-- The state reached after collecting the single candidate row `a|b`. -/
def c6state : MDState := { initState with tableRows := [[['a'], ['b']]] }

/-- Witness for the general part of `c6_failed_table_behaviour` at the
collected-row state and the failing line `x|y`. -/
theorem c6_failed_table_behaviour_witness :
    c6state.inCodeBlock = false ∧
    "```".data.isPrefixOf (jsTrim ("x|y".data)) = false ∧
    (jsTrim ("x|y".data)).contains '|' = true ∧
    c6state.inTable = false ∧
    c6state.tableRows.length = 1 ∧
    (tableCells (jsTrim ("x|y".data))).all isSepCell = false ∧
    mdStep true c6state ("x|y".data) none = nonTableStep true c6state ("x|y".data) none := by
  refine ⟨by decide, by decide, by decide, by decide, by decide, by decide, ?_⟩
  exact c6_failed_table_behaviour.1 true c6state ("x|y".data) none
    (by decide) (by decide) (by decide) (by decide) (by decide) (by decide)

/-!  ## C7: ordered-list start attribute  -/

/-- C7: `5. item` produces `<ol start="5">` wrapping exactly one
`<li>item</li>`, and in general the opening tag built for an ordered list
carries a `start` attribute exactly when the parsed first number is not 1. -/
theorem c7_ordered_list_start :
    markdownToHtml "5. item" ⟨true⟩ = "<ol start=\"5\">\n<li>item</li>\n</ol>" ∧
    ∀ n : Nat, ("start=\"".data <:+: olOpenTag n ↔ ¬ (n = 1)) := by
  constructor
  · decide
  · intro n
    by_cases h : n = 1
    · subst h
      have hno : ¬ ("start=\"".data <:+: olOpenTag 1) := by decide
      simp [hno]
    · have hfuse : "<ol ".data ++ "start=\"".data = "<ol start=\"".data := rfl
      have hinf : "start=\"".data <:+: olOpenTag n := by
        rw [olOpenTag, if_neg h]
        refine ⟨"<ol ".data, (Nat.repr n).data ++ "\">".data, ?_⟩
        rw [← List.append_assoc, hfuse]
      simp [hinf, h]

/-!  ## C8: ordered lists in `htmlToMarkdown`  -/

/-- C8 (code bug): the ordered-list replacer numbers the items but loses
their text — its callback returns a template literal containing the two raw
characters `$1`, which a function-valued `replace` never substitutes. -/
theorem c8_ol_literal_dollar :
    htmlToMarkdown "<ol><li>A</li><li>B</li></ol>" = "1. $1\n2. $1" := by
  decide

/-!  ## C9: the markdown → html → markdown round trip  -/

/-- C9: round-tripping `## Hi\n\nSome **bold** text.` (GFM on) yields
markdown that starts with the level-2 ATX header `## Hi` and still carries
the `**bold**` emphasis. -/
theorem c9_roundtrip :
    ("## Hi\n".data <+:
      (htmlToMarkdown (markdownToHtml "## Hi\n\nSome **bold** text." ⟨true⟩)).data) ∧
    ("**bold**".data <:+:
      (htmlToMarkdown (markdownToHtml "## Hi\n\nSome **bold** text." ⟨true⟩)).data) := by
  decide

end Horse


